import Mathlib

/-!
# Verification of the data-to-visual encoding pipeline of `shu`

Shallow embedding of the systems in `src/aesthetics.rs` and `src/gui.rs`
of the `shu` metabolic-map visualizer, together with proofs about them.

Modelling conventions:

* `f32` values are modelled as `ℚ`; the operations exercised here
  (comparison, `min`/`max`, subtraction, multiplication, division by a
  nonzero number) are exact on the values the claims are about.
  A division by zero produces a non-finite `f32` (`NaN` or `±Inf`);
  wherever that can happen the model returns `Option ℚ`, with `none`
  standing for the non-finite result, which is then propagated the way
  `f32` arithmetic propagates `NaN`.
* Bevy ECS queries are modelled as lists of records; a system is a
  function from the queried lists (and the `UiState` resource) to the
  updated lists plus any newly spawned entities.  Iteration order of a
  query is the order of the list.
* The anchor `Transform`s built by the axis systems (translations and
  rotations computed with trigonometry on `f32`) are not part of any
  property proved here and are left out of the `Xaxis` model; the fields
  of `Xaxis` that the claims touch (`id`, `arrow_size`, `xlimits`,
  `side`, `plot`, `node_id`, `dragged`, `rotating`, `conditions`) are
  all modelled.
* The component structs `Side`, `HistPlot`, `GeomHist`, `HistTag` and
  `Xaxis` are reconstructed from their construction and use sites in
  `src/aesthetics.rs` (the copy of `geom.rs` in the tree is an earlier
  revision that predates some of these fields).
-/

namespace Shu

/-- Side of an arrow a histogram is plotted on (`geom.rs`, as used by
`aesthetics.rs`, which also matches `Side::Up` for hover popups). -/
inductive Side where
  | Left
  | Right
  | Up
deriving DecidableEq, Repr

/-- Kind of side plot (`geom.rs::HistPlot` as used by `aesthetics.rs`). -/
inductive HistPlot where
  | Hist
  | Kde
  | BoxPoint
deriving DecidableEq, Repr

/-- A color with rgba channels, modelling both `bevy` `Color` and `egui`
`Rgba` (four `f32` channels, here `ℚ`). -/
structure Rgba where
  r : ℚ
  g : ℚ
  b : ℚ
  a : ℚ
deriving DecidableEq, Repr

/-- `aesthetics.rs::Aesthetics`: ordered identifiers and an optional
condition label attached to one dataset. -/
structure Aesthetics where
  plotted : Bool
  identifiers : List String
  condition : Option String
deriving DecidableEq, Repr

/-- `geom.rs::HistTag` as constructed in `aesthetics.rs`: tag carried by
every spawned side-plot / hover glyph. -/
structure HistTag where
  side : Side
  condition : Option String
  node_id : Nat
deriving DecidableEq, Repr

/-- `bevy` `Visibility` as used in `aesthetics.rs`
(`Visibility::VISIBLE` / `Visibility::INVISIBLE`). -/
inductive Visibility where
  | VISIBLE
  | INVISIBLE
deriving DecidableEq, Repr

/-- The slice of `gui.rs::UiState` read by the systems modelled here. -/
structure UiState where
  min_reaction : ℚ
  max_reaction : ℚ
  min_reaction_color : Rgba
  max_reaction_color : Rgba
  min_metabolite : ℚ
  max_metabolite : ℚ
  min_metabolite_color : Rgba
  max_metabolite_color : Rgba
  max_left : ℚ
  max_right : ℚ
  max_top : ℚ
  color_left : Rgba
  color_right : Rgba
  color_top : Rgba
  condition : String
  conditions : List String
deriving DecidableEq, Repr

/-- The per-side target height read by `normalize_histogram_height`
(`ui_state.max_left` / `max_right` / `max_top`). -/
def UiState.sideTarget (ui : UiState) : Side → ℚ
  | Side.Left => ui.max_left
  | Side.Right => ui.max_right
  | Side.Up => ui.max_top

/-- The per-side fill color read by `normalize_histogram_height`
(`ui_state.color_left` / `color_right` / `color_top`; the
`Color::rgba_linear` channel copy is the identity on the model's
channels). -/
def UiState.sideColor (ui : UiState) : Side → Rgba
  | Side.Left => ui.color_left
  | Side.Right => ui.color_right
  | Side.Up => ui.color_top

/-! ## Scale engine (`funcplot.rs`, not shipped in `src/`)

`funcplot.rs` is not part of the provided sources; the functions below
are modelled from the spec (§4.1). -/

/-- Modelled from the spec: reduction `min_f32` over a sample set
(`funcplot.rs` is missing from `src/`).  The spec states an empty input
must be rejected by the caller; on `[]` the model returns `0`. -/
def min_f32 : List ℚ → ℚ
  | [] => 0
  | x :: xs => xs.foldl min x

/-- Modelled from the spec: reduction `max_f32` over a sample set
(`funcplot.rs` is missing from `src/`).  The spec states an empty input
must be rejected by the caller; on `[]` the model returns `0`. -/
def max_f32 : List ℚ → ℚ
  | [] => 0
  | x :: xs => xs.foldl max x

/-- Modelled from the spec: `lerp(value, src_min, src_max, dst_min,
dst_max)` is the affine map which "fails silently to `NaN`/`Inf` when
`src_max == src_min`" (`funcplot.rs` is missing from `src/`).  `none`
models the non-finite result of the division by zero. -/
def lerp (value min1 max1 min2 max2 : ℚ) : Option ℚ :=
  if max1 = min1 then none
  else some ((value - min1) / (max1 - min1) * (max2 - min2) + min2)

/-- Division as performed on `f32` at the call sites
`(v - min) / (max - min)`: `none` models the `NaN` produced when the
denominator is zero (there the numerator is zero as well). -/
def fdiv (a b : ℚ) : Option ℚ :=
  if b = 0 then none else some (a / b)

/-- Modelled from the spec: `lerp_hsv(t, c_min, c_max)` interpolates hue
along the shorter arc on the hue circle, then linearly interpolates the
remaining channels (`funcplot.rs` is missing from `src/`).  Colors are
carried as rgba records, with the mixing performed channel-wise after
the hue adjustment; a `NaN` interpolation parameter (`none`) propagates
into the color. -/
def lerp_hsv (t : Option ℚ) (cmin cmax : Rgba) : Option Rgba :=
  t.map fun tq =>
    { r := cmin.r + (cmax.r - cmin.r) * tq
      g := cmin.g + (cmax.g - cmin.g) * tq
      b := cmin.b + (cmax.b - cmin.b) * tq
      a := cmin.a + (cmax.a - cmin.a) * tq }

/-! ## `or_color` (`gui.rs`)

`HashMap<String, Rgba>` is modelled as an association list looked up
with `List.lookup`; `Entry::Vacant.insert` appends the new pair.
`Option.none` as result models the panic of `map.get("").unwrap()`. -/

/-- `gui.rs::or_color`: retrieve the color stored at `key`, or insert
(and return) a copy of the color stored at the empty-string key.  The
`unwrap` of the empty-string lookup is performed first; `none` models
its panic. -/
def or_color (key : String) (map : List (String × Rgba)) :
    Option (Rgba × List (String × Rgba)) :=
  match map.lookup "" with
  | none => none
  | some def_color =>
    match map.lookup key with
    | some v => some (v, map)
    | none => some (def_color, map ++ [(key, def_color)])

/-! ## Visibility filtering (`aesthetics.rs::filter_histograms`) -/

/-- One entity of the `Query<(&mut Visibility, &HistTag), Without<AnyTag>>`
of `filter_histograms`: a rendered side-plot encoding (hover popups
carry `AnyTag` and are excluded from the query). -/
structure VisEntity where
  vis : Visibility
  hist : HistTag
deriving DecidableEq, Repr

/-- The per-entity body of `filter_histograms`: an encoding carrying a
condition is hidden iff its condition differs from the active one and
the active one is not "ALL"; an encoding with no condition is left
untouched. -/
def filterHistStep (ui : UiState) (e : VisEntity) : VisEntity :=
  match e.hist.condition with
  | some c =>
    if c ≠ ui.condition ∧ ui.condition ≠ "ALL" then
      { e with vis := Visibility.INVISIBLE }
    else
      { e with vis := Visibility.VISIBLE }
  | none => e

/-- `aesthetics.rs::filter_histograms`: hide histograms that are not in
the active condition. -/
def filter_histograms (ui : UiState) (es : List VisEntity) : List VisEntity :=
  es.map (filterHistStep ui)

/-! ## Child unscaling (`aesthetics.rs::unscale_histogram_children`) -/

/-- A transform, reduced to the `scale.y` channel which is the only one
these systems touch. -/
structure TransformY where
  scaleY : ℚ
deriving DecidableEq, Repr

/-- A `HistTag` parent together with the transforms of its children, as
iterated by `unscale_histogram_children`. -/
structure HistParent where
  trans : TransformY
  children : List TransformY
deriving DecidableEq, Repr

/-- `aesthetics.rs::unscale_histogram_children`: every child of a scaled
histogram gets `scale.y = 1 / parent.scale.y`. -/
def unscale_histogram_children (p : HistParent) : HistParent :=
  { p with children := p.children.map fun _ => { scaleY := 1 / p.trans.scaleY } }

/-! ## Height normalization (`aesthetics.rs::normalize_histogram_height`) -/

/-- One entity of the query
`Query<(&mut Transform, &mut Path, &mut DrawMode, &HistTag), Without<Unscale>>`
of `normalize_histogram_height`.  `pathYs` is the list of
`ev.to().y` endpoints of the path; `fill` is `some` iff the draw mode is
`DrawMode::Fill`; `unscale` records whether the entity carries the
`Unscale` marker (such entities are filtered out of the query, i.e.
left untouched). -/
structure HistEntity where
  trans : TransformY
  pathYs : List ℚ
  fill : Option Rgba
  hist : HistTag
  unscale : Bool
deriving DecidableEq, Repr

/-- The per-entity body of `normalize_histogram_height`: set a
non-`Unscale` histogram's `scale.y` to the side's target height divided
by the path's own maximum `y`, and refresh the fill color from the
per-side setting.  (`Unscale`-marked entities are filtered out of the
query, i.e. left untouched.)  When the raw maximum is `0` the `f32`
division yields `±Inf`; the rational model is only appealed to under a
`height ≠ 0` hypothesis. -/
def normalizeStep (ui : UiState) (e : HistEntity) : HistEntity :=
  if e.unscale then e
  else
    let height := max_f32 e.pathYs
    { e with
      trans := { scaleY := ui.sideTarget e.hist.side / height }
      fill := e.fill.map fun _ => ui.sideColor e.hist.side }

/-- `aesthetics.rs::normalize_histogram_height`. -/
def normalize_histogram_height (ui : UiState) (es : List HistEntity) :
    List HistEntity :=
  es.map (normalizeStep ui)

/-! ## Condition gathering (`aesthetics.rs::fill_conditions`) -/

/-- `itertools`' `unique()` on an iterator of strings: deduplicate,
keeping the first occurrence of each label in iteration order. -/
def uniqueList (l : List String) : List String :=
  l.foldl (fun acc x => if x ∈ acc then acc else acc ++ [x]) []

/-- `aesthetics.rs::fill_conditions`: scan the conditions of all present
`Aesthetics`, and when some scanned label is not yet in
`ui_state.conditions`, replace the stored list with the scanned one
(appending "ALL" when missing), or with `[""]` when the scan is empty;
an empty active condition is then set to `conditions[0]` (the list is
never empty at that point, so `headD` is exact). -/
def fill_conditions (ui : UiState) (aes : List Aesthetics) : UiState :=
  let conditions := uniqueList (aes.filterMap (·.condition))
  if conditions.any (fun cond => !(ui.conditions.contains cond)) then
    let ui1 :=
      if !conditions.isEmpty then
        let cs := if conditions.contains "ALL" then conditions
                  else conditions ++ ["ALL"]
        { ui with conditions := cs }
      else
        { ui with conditions := [""], condition := "" }
    if ui1.condition = "" then { ui1 with condition := ui1.conditions.headD "" }
    else ui1
  else ui

/-! ## Arrow and metabolite scaling passes (`aesthetics.rs`) -/

/-- The stroke data of a `DrawMode::Stroke` arrow: line width and stroke
color.  `none` in a channel models a non-finite (`NaN`/`Inf`) `f32`
value having been written there. -/
structure StrokeData where
  line_width : Option ℚ
  color : Option Rgba
deriving DecidableEq, Repr

/-- One entity of the `Query<(&mut DrawMode, &ArrowTag)>` used by the
arrow passes; `stroke` is `some` iff the draw mode is
`DrawMode::Stroke` (other draw modes are left untouched). -/
structure ArrowEnt where
  id : String
  stroke : Option StrokeData
deriving DecidableEq, Repr

/-- One entity of the `Query<(&mut Path, &CircleTag)>` /
`Query<(&mut DrawMode, &CircleTag)>` used by the metabolite passes.
`radius` is the radius of the hexagon path, `fill` the fill color of the
`DrawMode::Outlined`; `none` models a non-finite value. -/
structure CircleEnt where
  id : String
  radius : Option ℚ
  fill : Option Rgba
deriving DecidableEq, Repr

/-- A `(Point<f32>, Aesthetics)` binding as queried by the scalar
passes. -/
structure PointBinding where
  values : List ℚ
  aes : Aesthetics
deriving DecidableEq, Repr

/-- `Color::rgb(0.85, 0.85, 0.85)`, the fallback for unmatched ids. -/
def greyColor : Rgba := { r := 17/20, g := 17/20, b := 17/20, a := 1 }

/-- The binding-skipping guard shared by the arrow passes:
`if let Some(condition) = &aes.condition { if condition != &ui_state.condition { continue; } }`. -/
def condSkip (ui : UiState) (aes : Aesthetics) : Bool :=
  match aes.condition with
  | some condition => condition ≠ ui.condition
  | none => false

/-- The per-binding body of `plot_arrow_size`: skip bindings whose
condition differs from the active one; otherwise set each stroke
arrow's line width to the `lerp` of its value (`10.` when the arrow's
id is not among the binding's identifiers). -/
def arrowSizeStep (ui : UiState) (arrows : List ArrowEnt)
    (b : PointBinding) : List ArrowEnt :=
  if condSkip ui b.aes then arrows
  else
    let min_val := min_f32 b.values
    let max_val := max_f32 b.values
    arrows.map fun arrow =>
      match arrow.stroke with
      | none => arrow
      | some stroke =>
        match b.aes.identifiers.findIdx? (fun r => r = arrow.id) with
        | some index =>
          let w := lerp ((b.values.get? index).getD 0) min_val max_val
            ui.min_reaction ui.max_reaction
          { arrow with stroke := some { stroke with line_width := w } }
        | none =>
          { arrow with stroke := some { stroke with line_width := some 10 } }

/-- `aesthetics.rs::plot_arrow_size`. -/
def plot_arrow_size (ui : UiState) (arrows : List ArrowEnt)
    (bs : List PointBinding) : List ArrowEnt :=
  bs.foldl (arrowSizeStep ui) arrows

/-- The per-binding body of `plot_arrow_color`: skip bindings whose
condition differs from the active one; otherwise set each stroke
arrow's color to `lerp_hsv((v - min) / (max - min), ...)` — the
division is performed unguarded, so an all-equal dataset produces
`0/0 = NaN` (`fdiv` = `none`). -/
def arrowColorStep (ui : UiState) (arrows : List ArrowEnt)
    (b : PointBinding) : List ArrowEnt :=
  if condSkip ui b.aes then arrows
  else
    let min_val := min_f32 b.values
    let max_val := max_f32 b.values
    arrows.map fun arrow =>
      match arrow.stroke with
      | none => arrow
      | some stroke =>
        match b.aes.identifiers.findIdx? (fun r => r = arrow.id) with
        | some index =>
          let c := lerp_hsv
            (fdiv ((b.values.get? index).getD 0 - min_val)
              (max_val - min_val))
            ui.min_reaction_color ui.max_reaction_color
          { arrow with stroke := some { stroke with color := c } }
        | none =>
          { arrow with stroke := some { stroke with color := some greyColor } }

/-- `aesthetics.rs::plot_arrow_color`. -/
def plot_arrow_color (ui : UiState) (arrows : List ArrowEnt)
    (bs : List PointBinding) : List ArrowEnt :=
  bs.foldl (arrowColorStep ui) arrows

/-- The per-binding body of `plot_metabolite_size`: no condition
filtering; the binding rewrites every circle's path to a hexagon whose
radius is the `lerp` of the circle's value (`20.` when the circle's id
is not among the binding's identifiers). -/
def metSizeStep (ui : UiState) (circles : List CircleEnt)
    (b : PointBinding) : List CircleEnt :=
  let min_val := min_f32 b.values
  let max_val := max_f32 b.values
  circles.map fun circle =>
    let radius :=
      match b.aes.identifiers.findIdx? (fun r => r = circle.id) with
      | some index =>
        lerp ((b.values.get? index).getD 0) min_val max_val
          ui.min_metabolite ui.max_metabolite
      | none => some 20
    { circle with radius := radius }

/-- `aesthetics.rs::plot_metabolite_size`. -/
def plot_metabolite_size (ui : UiState) (circles : List CircleEnt)
    (bs : List PointBinding) : List CircleEnt :=
  bs.foldl (metSizeStep ui) circles

/-- The per-binding body of `plot_metabolite_color`: no condition
filtering; the fill color of each circle is set from
`lerp_hsv((v - min) / (max - min), ...)` (grey for unmatched ids). -/
def metColorStep (ui : UiState) (circles : List CircleEnt)
    (b : PointBinding) : List CircleEnt :=
  let min_val := min_f32 b.values
  let max_val := max_f32 b.values
  circles.map fun circle =>
    match b.aes.identifiers.findIdx? (fun r => r = circle.id) with
    | some index =>
      let c := lerp_hsv
        (fdiv ((b.values.get? index).getD 0 - min_val)
          (max_val - min_val))
        ui.min_metabolite_color ui.max_metabolite_color
      { circle with fill := c }
    | none => { circle with fill := some greyColor }

/-- `aesthetics.rs::plot_metabolite_color`. -/
def plot_metabolite_color (ui : UiState) (circles : List CircleEnt)
    (bs : List PointBinding) : List CircleEnt :=
  bs.foldl (metColorStep ui) circles

/-! ## Axis aggregation (`aesthetics.rs::build_axes`) -/

/-- `geom.rs::GeomHist` as used by `aesthetics.rs` (side, plot kind and
the two idempotence flags `in_axis` and `rendered`). -/
structure GeomHist where
  side : Side
  plot : HistPlot
  in_axis : Bool
  rendered : Bool
deriving DecidableEq, Repr

/-- `geom.rs::Xaxis` as constructed by `aesthetics.rs::build_axes`.  The
anchor `Transform` spawned beside it (translation/rotation trigonometry
on `f32`) is outside every property proved here and is not modelled. -/
structure Xaxis where
  id : String
  arrow_size : ℚ
  xlimits : ℚ × ℚ
  side : Side
  plot : HistPlot
  node_id : Nat
  dragged : Bool
  rotating : Bool
  conditions : List String
deriving DecidableEq, Repr

/-- One `(&Transform, &ArrowTag, &Path)` entity of the arrow query of
the axis builders, restricted to the data the aggregation uses: the
arrow id, its node id, and `path_to_vec(path).length()`. -/
structure ArrowGeom where
  id : String
  node_id : Nat
  size : ℚ
deriving DecidableEq, Repr

/-- A `(Distribution<f32>, Aesthetics, GeomHist)` binding as queried by
`build_axes` and `plot_side_hist` (`With<Gy>, Without<PopUp>`). -/
structure DistBinding where
  dist : List (List ℚ)
  aes : Aesthetics
  geom : GeomHist
deriving DecidableEq, Repr

/-- The key of the two-level `HashMap<String, HashMap<Side, _>>` of
`build_axes`, flattened to a pair (element id, side). -/
abbrev AxKey := String × Side

/-- The axis accumulator of `build_axes`, as an association list keyed
by (element id, side). -/
abbrev AxMap := List (AxKey × Xaxis)

/-- Lookup in the axis accumulator. -/
def axLookup : AxMap → AxKey → Option Xaxis
  | [], _ => none
  | (k', ax) :: m, k => if k' = k then some ax else axLookup m k

/-- Replace-or-append insertion in the axis accumulator (the effect of
mutating the entry returned by `entry(..).or_insert(..)`). -/
def axInsert : AxMap → AxKey → Xaxis → AxMap
  | [], k, ax => [(k, ax)]
  | (k', ax') :: m, k, ax =>
    if k' = k then (k, ax) :: m else (k', ax') :: axInsert m k ax

/-- The distribution the binding `b` contributes at the arrow `a`:
`aes.identifiers.position(|r| r == &arrow.id)` followed by
`dist.0.get(index)`. -/
def arrowHit (b : DistBinding) (a : ArrowGeom) : Option (List ℚ) :=
  match b.aes.identifiers.findIdx? (fun r => r = a.id) with
  | none => none
  | some index => b.dist.get? index

/-- One iteration of the inner arrow loop of `build_axes`: look up or
create the axis keyed by (arrow id, side), union the local range into
its `xlimits`, push the binding's condition, and flag `in_axis` (the
`Bool` threads the flag).  A side of `Up` is skipped with a diagnostic,
before any entry is created and without setting the flag. -/
def buildStep (b : DistBinding) (acc : AxMap × Bool) (a : ArrowGeom) :
    AxMap × Bool :=
  match arrowHit b a with
  | none => acc
  | some this_dist =>
    if b.geom.side = Side.Up then acc
    else
      let xlimits := (min_f32 this_dist, max_f32 this_dist)
      let key : AxKey := (a.id, b.geom.side)
      let ax0 :=
        match axLookup acc.1 key with
        | some ax => ax
        | none =>
          { id := a.id
            arrow_size := a.size
            xlimits := xlimits
            side := b.geom.side
            plot := b.geom.plot
            node_id := a.node_id
            dragged := false
            rotating := false
            conditions := [] }
      let ax1 :=
        { ax0 with
          xlimits := (min ax0.xlimits.1 xlimits.1, max ax0.xlimits.2 xlimits.2)
          conditions := ax0.conditions ++ b.aes.condition.toList }
      (axInsert acc.1 key ax1, true)

/-- The body of the outer binding loop of `build_axes`: skip bindings
already aggregated, otherwise fold the arrow loop over the accumulator
and mark the binding.  (Setting `in_axis` once after the arrow loop is
equivalent to the source's per-iteration assignment: the flag is only
read at the top of the binding loop.) -/
def buildBindingStep (arrows : List ArrowGeom)
    (acc : List DistBinding × AxMap) (b : DistBinding) :
    List DistBinding × AxMap :=
  if b.geom.in_axis then (acc.1 ++ [b], acc.2)
  else
    let step := arrows.foldl (buildStep b) (acc.2, false)
    let b2 :=
      if step.2 then { b with geom := { b.geom with in_axis := true } }
      else b
    (acc.1 ++ [b2], step.1)

/-- `aesthetics.rs::build_axes`: for every not-yet-aggregated binding,
fold its contributions at every matching arrow into the axis
accumulator and mark the binding; the spawned axes are the final values
of the accumulator. -/
def build_axes (arrows : List ArrowGeom) (bs : List DistBinding) :
    List DistBinding × AxMap :=
  bs.foldl (buildBindingStep arrows) ([], [])

/-- The local range the binding `b` maps to the key `k` at the arrow
`a`, if any (written from the claim's words, for comparison with
`build_axes`). -/
def arrowRange (b : DistBinding) (a : ArrowGeom) (k : AxKey) :
    Option (ℚ × ℚ) :=
  match arrowHit b a with
  | none => none
  | some d =>
    if b.geom.side = Side.Up then none
    else if (a.id, b.geom.side) = k then some (min_f32 d, max_f32 d)
    else none

/-- The local ranges one binding maps to the key `k`, in arrow order
(written from the claim's words). -/
def bindingRanges (arrows : List ArrowGeom) (b : DistBinding)
    (k : AxKey) : List (ℚ × ℚ) :=
  arrows.filterMap fun a => arrowRange b a k

/-- Written from the claim's words, for comparison with `build_axes`:
the local ranges `(min, max)` of all distribution bindings mapped to
the key (element id, side), in processing order. -/
def specLocalRanges (arrows : List ArrowGeom) (bs : List DistBinding)
    (k : AxKey) : List (ℚ × ℚ) :=
  bs.flatMap fun b =>
    if b.geom.in_axis then [] else bindingRanges arrows b k

/-- The claim's range union: fold `min`/`max` over a list of local
ranges, starting from the first. -/
def unionFold : List (ℚ × ℚ) → ℚ × ℚ
  | [] => (0, 0)
  | c :: cs => cs.foldl (fun acc q => (min acc.1 q.1, max acc.2 q.2)) c

/-! ## Side histograms (`aesthetics.rs::plot_side_hist`)

`plot_hist` and `plot_kde` live in `funcplot.rs`, which is missing from
`src/`; they are modelled from the spec (§4.3). -/

/-- Modelled from the spec: histogram geometry — partition the range
into `bins` bins, bar heights are bin counts, emitted as a polyline
whose horizontal extent equals `size`; returns no geometry if the
sample set is empty or the range is degenerate (`funcplot.rs` is
missing from `src/`). -/
def plot_hist (samples : List ℚ) (bins : Nat) (size : ℚ)
    (xlimits : ℚ × ℚ) : Option (List (ℚ × ℚ)) :=
  if samples.isEmpty ∨ xlimits.1 = xlimits.2 then none
  else
    let lo := xlimits.1
    let hi := xlimits.2
    let w := (hi - lo) / bins
    some ((List.range bins).map fun i =>
      ((i : ℚ) * size / bins,
        ((samples.filter fun s =>
          decide (lo + i * w ≤ s) && decide (s < lo + (i + 1) * w)).length : ℚ)))

/-- Modelled from the spec: kernel density estimate over the range at
`n` points under the same scaling rule, with a deterministic bandwidth
of a tenth of the range (the spec leaves the bandwidth to the
implementer); returns no geometry under the same conditions as
`plot_hist` (`funcplot.rs` is missing from `src/`). -/
def plot_kde (samples : List ℚ) (n : Nat) (size : ℚ)
    (xlimits : ℚ × ℚ) : Option (List (ℚ × ℚ)) :=
  if samples.isEmpty ∨ xlimits.1 = xlimits.2 then none
  else
    let lo := xlimits.1
    let hi := xlimits.2
    let h := (hi - lo) / 10
    some ((List.range (n + 1)).map fun j =>
      ((j : ℚ) * size / n,
        samples.foldl
          (fun acc s => acc + max 0 (1 - |lo + (hi - lo) * j / n - s| / h)) 0))

/-- The inner axis loop of `plot_side_hist` for one binding, returning
the binding's updated `GeomHist` and the glyphs spawned so far (each
glyph modelled by its `HistTag`; the attached scale labels are child
text entities and are not modelled).  Control flow is transcribed from
the source: a failed `position` falls through to `geom.rendered = true`;
an out-of-range `dist.0.get(index)` or an `Up` side `continue`s to the
next axis without touching the flag; a `BoxPoint` plot or a `None`
geometry `continue 'outer`s, abandoning the remaining axes with the
flag as it stands. -/
def sideHistLoop (aes : Aesthetics) (dist : List (List ℚ)) :
    List Xaxis → GeomHist → List HistTag → GeomHist × List HistTag
  | [], geom, gs => (geom, gs)
  | axis :: rest, geom, gs =>
    match aes.identifiers.findIdx?
        (fun r => decide (r = axis.id) && decide (geom.side = axis.side)) with
    | none => sideHistLoop aes dist rest { geom with rendered := true } gs
    | some index =>
      match dist.get? index with
      | none => sideHistLoop aes dist rest geom gs
      | some this_dist =>
        match geom.plot with
        | HistPlot.BoxPoint => (geom, gs)
        | _ =>
          let line :=
            match geom.plot with
            | HistPlot.Hist => plot_hist this_dist 30 axis.arrow_size axis.xlimits
            | _ => plot_kde this_dist 200 axis.arrow_size axis.xlimits
          match line with
          | none => (geom, gs)
          | some _ =>
            match geom.side with
            | Side.Up => sideHistLoop aes dist rest geom gs
            | _ =>
              sideHistLoop aes dist rest { geom with rendered := true }
                (gs ++ [{ side := geom.side
                          condition := aes.condition
                          node_id := axis.node_id }])

/-- `aesthetics.rs::plot_side_hist`: for every not-yet-rendered binding
run the axis loop, threading the list of spawned glyphs. -/
def plot_side_hist (axes : List Xaxis) (bs : List DistBinding) :
    List DistBinding × List HistTag :=
  bs.foldl
    (fun acc b =>
      if b.geom.rendered then (acc.1 ++ [b], acc.2)
      else
        let r := sideHistLoop b.aes b.dist axes b.geom acc.2
        (acc.1 ++ [{ b with geom := r.1 }], r.2))
    ([], [])

/-- The radius the metabolite size pass computes for the element `id`
from one binding (the claim's "the binding iterated last determines the
final radius"). -/
def metaboliteRadius (ui : UiState) (b : PointBinding) (id : String) :
    Option ℚ :=
  match b.aes.identifiers.findIdx? (fun r => r = id) with
  | some index =>
    lerp ((b.values.get? index).getD 0) (min_f32 b.values) (max_f32 b.values)
      ui.min_metabolite ui.max_metabolite
  | none => some 20

/-- The fill color the metabolite color pass computes for the element
`id` from one binding. -/
def metaboliteFill (ui : UiState) (b : PointBinding) (id : String) :
    Option Rgba :=
  match b.aes.identifiers.findIdx? (fun r => r = id) with
  | some index =>
    lerp_hsv
      (fdiv ((b.values.get? index).getD 0 - min_f32 b.values)
        (max_f32 b.values - min_f32 b.values))
      ui.min_metabolite_color ui.max_metabolite_color
  | none => some greyColor

/-! ## Concrete fixtures used by witnesses and counterexamples -/

/-- A concrete `UiState` used by the witnesses below. -/
def uiW : UiState :=
  { min_reaction := 20, max_reaction := 60
    min_reaction_color := { r := 0, g := 0, b := 0, a := 1 }
    max_reaction_color := { r := 1, g := 1, b := 1, a := 1 }
    min_metabolite := 20, max_metabolite := 60
    min_metabolite_color := { r := 0, g := 0, b := 0, a := 1 }
    max_metabolite_color := { r := 1, g := 1, b := 1, a := 1 }
    max_left := 100, max_right := 100, max_top := 100
    color_left := { r := 1, g := 0, b := 0, a := 1 }
    color_right := { r := 0, g := 1, b := 0, a := 1 }
    color_top := { r := 0, g := 0, b := 1, a := 1 }
    condition := "cond1", conditions := ["cond1", "cond2", "ALL"] }

/-- A concrete arrow geometry. -/
def arrW : ArrowGeom := { id := "r1", node_id := 7, size := 50 }

/-- Distribution binding with samples `[1, 2, 3]` under condition
`cond1`. -/
def bW1 : DistBinding :=
  { dist := [[1, 2, 3]]
    aes := { plotted := false, identifiers := ["r1"], condition := some "cond1" }
    geom := { side := Side.Right, plot := HistPlot.Hist
              in_axis := false, rendered := false } }

/-- Distribution binding with samples `[0, 5]` under condition
`cond2`, on the same (element, side). -/
def bW2 : DistBinding :=
  { dist := [[0, 5]]
    aes := { plotted := false, identifiers := ["r1"], condition := some "cond2" }
    geom := { side := Side.Right, plot := HistPlot.Hist
              in_axis := false, rendered := false } }

/-- An axis that matches no binding below (element id `other`). -/
def axOther : Xaxis :=
  { id := "other", arrow_size := 50, xlimits := (0, 1), side := Side.Right
    plot := HistPlot.Hist, node_id := 1, dragged := false, rotating := false
    conditions := [] }

/-- An axis for element `r1` on the right side. -/
def axMatch : Xaxis :=
  { id := "r1", arrow_size := 50, xlimits := (0, 1), side := Side.Right
    plot := HistPlot.Hist, node_id := 2, dragged := false, rotating := false
    conditions := [] }

/-- A binding for `r1` whose sample set is empty. -/
def bEmptyDist : DistBinding :=
  { dist := [[]]
    aes := { plotted := false, identifiers := ["r1"], condition := none }
    geom := { side := Side.Right, plot := HistPlot.Hist
              in_axis := false, rendered := false } }

/-- A scalar binding whose values are all equal (degenerate range). -/
def bDegenerate : PointBinding :=
  { values := [2, 2]
    aes := { plotted := false, identifiers := ["r1"], condition := some "cond1" } }

/-- An arrow entity with a stroke draw mode. -/
def arrowW : ArrowEnt :=
  { id := "r1", stroke := some { line_width := some 1, color := some greyColor } }

/-- A circle entity. -/
def circleW : CircleEnt := { id := "r1", radius := some 5, fill := some greyColor }

/-- A right-side histogram entity with raw maximum height `10`. -/
def eH10 : HistEntity :=
  { trans := { scaleY := 1 }, pathYs := [0, 10, 3], fill := none
    hist := { side := Side.Right, condition := none, node_id := 0 }
    unscale := false }

/-- A right-side histogram entity with raw maximum height `40`. -/
def eH40 : HistEntity :=
  { trans := { scaleY := 1 }, pathYs := [40, 2], fill := none
    hist := { side := Side.Right, condition := none, node_id := 1 }
    unscale := false }

/-! ## Helper lemmas -/

theorem lookup_append_of_some {α : Type} [BEq α] {l₁ l₂ : List (α × Rgba)}
    {k : α} {v : Rgba} (h : l₁.lookup k = some v) :
    (l₁ ++ l₂).lookup k = some v := by
  induction l₁ with
  | nil => simp [List.lookup] at h
  | cons p l ih =>
    obtain ⟨k1, v1⟩ := p
    cases hb : k == k1 with
    | true =>
      simp only [List.lookup, hb] at h
      simpa [List.cons_append, List.lookup, hb] using h
    | false =>
      simp only [List.lookup, hb] at h
      simpa [List.cons_append, List.lookup, hb] using ih h

theorem lookup_append_of_none {α : Type} [BEq α] {l₁ l₂ : List (α × Rgba)}
    {k : α} (h : l₁.lookup k = none) :
    (l₁ ++ l₂).lookup k = l₂.lookup k := by
  induction l₁ with
  | nil => simp
  | cons p l ih =>
    obtain ⟨k1, v1⟩ := p
    cases hb : k == k1 with
    | true =>
      simp only [List.lookup, hb] at h
      exact absurd h (by simp)
    | false =>
      simp only [List.lookup, hb] at h
      simpa [List.cons_append, List.lookup, hb] using ih h

/-! ## C10: `or_color` -/

/-- C10: `or_color(key, map)`: when `key` is present (and the required
empty-string entry exists), the stored value is returned and the map is
unchanged; when `key` is absent, a copy of the value stored at the
empty-string key is inserted at `key` and returned, leaving every other
entry unchanged; the call panics (returns `none` in the model) exactly
when the empty-string entry is missing. -/
theorem or_color_spec (key : String) (map : List (String × Rgba)) :
    (or_color key map = none ↔ map.lookup "" = none) ∧
    (∀ d, map.lookup "" = some d →
      (∀ v, map.lookup key = some v → or_color key map = some (v, map)) ∧
      (map.lookup key = none →
        or_color key map = some (d, map ++ [(key, d)]) ∧
        (map ++ [(key, d)]).lookup key = some d ∧
        ∀ k, k ≠ key → (map ++ [(key, d)]).lookup k = map.lookup k)) := by
  constructor
  · unfold or_color
    cases h0 : map.lookup "" with
    | none => simp
    | some d =>
      cases hk : map.lookup key <;> simp
  · intro d h0
    constructor
    · intro v hv
      unfold or_color
      rw [h0, hv]
    · intro hk
      refine ⟨by unfold or_color; rw [h0, hk], ?_, ?_⟩
      · rw [lookup_append_of_none hk]
        simp [List.lookup]
      · intro k hkk
        cases hmk : map.lookup k with
        | some v => exact lookup_append_of_some hmk
        | none =>
          rw [lookup_append_of_none hmk]
          have hb : (k == key) = false := beq_eq_false_iff_ne.mpr hkk
          simp [List.lookup, hb]

/-- Witness for C10: inserting at an absent key copies the
empty-string entry. -/
theorem or_color_spec_witness :
    or_color "b" [("", greyColor)] =
      some (greyColor, [("", greyColor), ("b", greyColor)]) :=
  (((or_color_spec "b" [("", greyColor)]).2 greyColor
      (by with_unfolding_all decide)).2
    (by with_unfolding_all decide)).1

/-! ## C3: `filter_histograms` -/

/-- C3: after the visibility pass, an encoding carrying condition `c`
is `INVISIBLE` exactly when `c` differs from the active condition and
the active condition is not "ALL", and `VISIBLE` otherwise; an encoding
with no condition label is left untouched by this rule. -/
theorem filter_histograms_spec (ui : UiState) (es : List VisEntity)
    (i : Nat) (e : VisEntity) (h : es.get? i = some e) :
    ∃ e', (filter_histograms ui es).get? i = some e' ∧
      e'.hist = e.hist ∧
      (∀ c, e.hist.condition = some c →
        (e'.vis = Visibility.INVISIBLE ↔
          c ≠ ui.condition ∧ ui.condition ≠ "ALL") ∧
        (e'.vis = Visibility.VISIBLE ↔
          c = ui.condition ∨ ui.condition = "ALL")) ∧
      (e.hist.condition = none → e' = e) := by
  refine ⟨filterHistStep ui e, ?_, ?_, ?_, ?_⟩
  · rw [filter_histograms, List.get?_map, h]
    rfl
  · unfold filterHistStep
    cases hc : e.hist.condition with
    | none => rfl
    | some c =>
      show (if c ≠ ui.condition ∧ ui.condition ≠ "ALL"
            then { e with vis := Visibility.INVISIBLE }
            else { e with vis := Visibility.VISIBLE }).hist = e.hist
      by_cases h1 : c ≠ ui.condition ∧ ui.condition ≠ "ALL"
      · rw [if_pos h1]
      · rw [if_neg h1]
  · intro c hc
    have he : filterHistStep ui e =
        if c ≠ ui.condition ∧ ui.condition ≠ "ALL"
        then { e with vis := Visibility.INVISIBLE }
        else { e with vis := Visibility.VISIBLE } := by
      unfold filterHistStep
      rw [hc]
    rw [he]
    by_cases h1 : c ≠ ui.condition ∧ ui.condition ≠ "ALL"
    · rw [if_pos h1]
      refine ⟨⟨fun _ => h1, fun _ => rfl⟩, ?_, ?_⟩
      · intro hv
        exact absurd hv (by simp)
      · intro hor
        exfalso
        rcases h1 with ⟨hne, hnall⟩
        rcases hor with h2 | h2
        · exact hne h2
        · exact hnall h2
    · rw [if_neg h1]
      push_neg at h1
      refine ⟨⟨?_, ?_⟩, ?_, fun _ => rfl⟩
      · intro hv
        exact absurd hv (by simp)
      · rintro ⟨hne, hnall⟩
        exact absurd (h1 hne) hnall
      · intro _
        by_cases h2 : c = ui.condition
        · exact Or.inl h2
        · exact Or.inr (h1 h2)
  · intro hc
    unfold filterHistStep
    rw [hc]

/-- Witness for C3: with active condition `cond1`, an encoding tagged
`cond2` is hidden; with active condition "ALL" it is visible. -/
theorem filter_histograms_spec_witness :
    (∃ e', (filter_histograms uiW
        [{ vis := Visibility.VISIBLE
           hist := { side := Side.Right, condition := some "cond2", node_id := 0 } }]).get? 0
      = some e' ∧ e'.vis = Visibility.INVISIBLE) ∧
    (∃ e', (filter_histograms { uiW with condition := "ALL" }
        [{ vis := Visibility.INVISIBLE
           hist := { side := Side.Right, condition := some "cond2", node_id := 0 } }]).get? 0
      = some e' ∧ e'.vis = Visibility.VISIBLE) := by
  constructor
  · obtain ⟨e', h1, _, h3, _⟩ := filter_histograms_spec uiW
      [{ vis := Visibility.VISIBLE
         hist := { side := Side.Right, condition := some "cond2", node_id := 0 } }]
      0 _ rfl
    exact ⟨e', h1, ((h3 "cond2" rfl).1).mpr (by with_unfolding_all decide)⟩
  · obtain ⟨e', h1, _, h3, _⟩ := filter_histograms_spec
      { uiW with condition := "ALL" }
      [{ vis := Visibility.INVISIBLE
         hist := { side := Side.Right, condition := some "cond2", node_id := 0 } }]
      0 _ rfl
    exact ⟨e', h1, ((h3 "cond2" rfl).2).mpr (Or.inr rfl)⟩

/-! ## C8: `unscale_histogram_children` -/

/-- C8: each child of a rescaled histogram gets vertical scale
`1 / s` where `s` is the parent's vertical scale, so the composed
vertical scale `s * (1 / s)` of every child is `1` (for `s ≠ 0`); the
parent's transform and the number of children are unchanged. -/
theorem unscale_histogram_children_spec (p : HistParent)
    (h : p.trans.scaleY ≠ 0) :
    (unscale_histogram_children p).trans = p.trans ∧
    (unscale_histogram_children p).children.length = p.children.length ∧
    ∀ c ∈ (unscale_histogram_children p).children,
      p.trans.scaleY * c.scaleY = 1 := by
  refine ⟨rfl, by simp [unscale_histogram_children], ?_⟩
  intro c hc
  simp only [unscale_histogram_children, List.mem_map] at hc
  obtain ⟨_, _, rfl⟩ := hc
  exact mul_one_div_cancel h

/-- Witness for C8: a parent scaled by `2` gets its child counter-scaled
to `1/2`, composing to `1`. -/
theorem unscale_histogram_children_spec_witness :
    (2 : ℚ) * ((unscale_histogram_children
        { trans := { scaleY := 2 }, children := [{ scaleY := 7 }] }).children.headD
          { scaleY := 0 }).scaleY = 1 := by
  have h := (unscale_histogram_children_spec
    { trans := { scaleY := 2 }, children := [{ scaleY := 7 }] }
    (by with_unfolding_all decide)).2.2
  exact h _ (by with_unfolding_all decide)

/-! ## C2: `normalize_histogram_height` -/

/-- C2: after the height-normalization pass, every histogram/KDE
encoding not marked `Unscale` has its vertical scale set to the side's
configured target divided by its own raw maximum height, so its
rescaled maximum equals the target (independently per side, through
`sideTarget`); `Unscale`-marked encodings (the box-and-point glyphs)
are excluded and left untouched. -/
theorem normalize_histogram_height_spec (ui : UiState)
    (es : List HistEntity) (i : Nat) (e : HistEntity)
    (h : es.get? i = some e) :
    ∃ e', (normalize_histogram_height ui es).get? i = some e' ∧
      (e.unscale = true → e' = e) ∧
      (e.unscale = false →
        e'.pathYs = e.pathYs ∧ e'.hist = e.hist ∧
        e'.trans.scaleY = ui.sideTarget e.hist.side / max_f32 e.pathYs ∧
        (max_f32 e.pathYs ≠ 0 →
          e'.trans.scaleY * max_f32 e.pathYs = ui.sideTarget e.hist.side)) := by
  refine ⟨normalizeStep ui e, ?_, ?_, ?_⟩
  · rw [normalize_histogram_height, List.get?_map, h]
    rfl
  · intro hu
    have he : normalizeStep ui e = e := by
      unfold normalizeStep
      rw [hu]
      rfl
    exact he
  · intro hu
    have he : normalizeStep ui e =
        { e with
          trans := { scaleY := ui.sideTarget e.hist.side / max_f32 e.pathYs }
          fill := e.fill.map fun _ => ui.sideColor e.hist.side } := by
      unfold normalizeStep
      rw [hu]
      rfl
    rw [he]
    exact ⟨rfl, rfl, rfl, fun hne => div_mul_cancel₀ _ hne⟩

/-- Witness for C2: raw maxima `10` and `40` with target `100` yield
scale factors `10` and `5/2`, both ending at height `100`. -/
theorem normalize_histogram_height_spec_witness :
    (∃ e', (normalize_histogram_height uiW [eH10, eH40]).get? 0 = some e' ∧
      e'.trans.scaleY * max_f32 eH10.pathYs = 100) ∧
    (∃ e', (normalize_histogram_height uiW [eH10, eH40]).get? 1 = some e' ∧
      e'.trans.scaleY * max_f32 eH40.pathYs = 100) := by
  constructor
  · obtain ⟨e', h1, _, h3⟩ :=
      normalize_histogram_height_spec uiW [eH10, eH40] 0 eH10 rfl
    obtain ⟨_, _, _, h4⟩ := h3 rfl
    exact ⟨e', h1, (h4 (by with_unfolding_all decide)).trans rfl⟩
  · obtain ⟨e', h1, _, h3⟩ :=
      normalize_histogram_height_spec uiW [eH10, eH40] 1 eH40 rfl
    obtain ⟨_, _, _, h4⟩ := h3 rfl
    exact ⟨e', h1, (h4 (by with_unfolding_all decide)).trans rfl⟩

/-! ## C7: `fill_conditions` -/

/-- Counterexample to C7: with a previously populated conditions list
and bindings carrying no condition label at all, the pass leaves the
state completely unchanged — it does not set the list to the single
empty label `[""]` nor the active condition to `""` as the claim
states, because the trigger (`some scanned label is unknown`) is false
when nothing is scanned, so the branch writing `[""]` is unreachable. -/
theorem fill_conditions_cex :
    fill_conditions uiW
      [{ plotted := false, identifiers := ["r1"], condition := none }] = uiW ∧
    uiW.conditions ≠ [""] ∧ uiW.condition ≠ "" := by
  with_unfolding_all decide

/-- C7 (amended): when every scanned label is already known — in
particular when no binding carries any condition label — the pass
leaves the state unchanged; when some deduplicated scanned label is not
yet known, the conditions list becomes the deduplicated scanned labels
with "ALL" appended whenever not already among them, and an empty
active condition becomes the first entry of the new list. -/
theorem fill_conditions_amended (ui : UiState) (aes : List Aesthetics) :
    ((∀ c ∈ uniqueList (aes.filterMap (fun a => a.condition)),
        c ∈ ui.conditions) →
      fill_conditions ui aes = ui) ∧
    (∀ c, c ∈ uniqueList (aes.filterMap (fun a => a.condition)) →
      c ∉ ui.conditions →
      (fill_conditions ui aes).conditions =
        (if (uniqueList (aes.filterMap (fun a => a.condition))).contains "ALL"
         then uniqueList (aes.filterMap (fun a => a.condition))
         else uniqueList (aes.filterMap (fun a => a.condition)) ++ ["ALL"]) ∧
      (fill_conditions ui aes).condition =
        (if ui.condition = ""
         then (fill_conditions ui aes).conditions.headD ""
         else ui.condition)) := by
  constructor
  · intro hall
    have hany : (uniqueList (aes.filterMap (fun a => a.condition))).any
        (fun cond => !(ui.conditions.contains cond)) = false := by
      rw [List.any_eq_false]
      intro c hc
      simp only [Bool.not_eq_true', Bool.not_eq_false]
      exact List.elem_eq_true_of_mem (hall c hc)
    unfold fill_conditions
    simp only [hany, Bool.false_eq_true, if_false]
  · intro c hc hnot
    have hany : (uniqueList (aes.filterMap (fun a => a.condition))).any
        (fun cond => !(ui.conditions.contains cond)) = true := by
      rw [List.any_eq_true]
      refine ⟨c, hc, ?_⟩
      cases hmem : ui.conditions.contains c with
      | false => rfl
      | true => exact absurd (by simpa using hmem) hnot
    have hemp : (uniqueList (aes.filterMap (fun a => a.condition))).isEmpty
        = false := by
      cases hu : uniqueList (aes.filterMap (fun a => a.condition)) with
      | nil => rw [hu] at hc; cases hc
      | cons x xs => rfl
    by_cases hcond : ui.condition = ""
    · constructor
      · unfold fill_conditions
        simp only [hany, hemp, Bool.not_false, eq_self_iff_true, if_true,
          hcond]
      · unfold fill_conditions
        simp only [hany, hemp, Bool.not_false, eq_self_iff_true, if_true,
          hcond]
    · constructor
      · unfold fill_conditions
        simp only [hany, hemp, Bool.not_false, eq_self_iff_true, if_true,
          if_neg hcond]
      · unfold fill_conditions
        simp only [hany, hemp, Bool.not_false, eq_self_iff_true, if_true,
          if_neg hcond]

/-- Witness for C7 (amended): two new labels `c1`, `c2` over a fresh
state produce the list `["c1", "c2", "ALL"]` and active condition
`c1`. -/
theorem fill_conditions_amended_witness :
    (fill_conditions { uiW with conditions := [""], condition := "" }
      [{ plotted := false, identifiers := ["r1"], condition := some "c1" },
       { plotted := false, identifiers := ["r2"], condition := some "c2" }]).conditions
      = ["c1", "c2", "ALL"] ∧
    (fill_conditions { uiW with conditions := [""], condition := "" }
      [{ plotted := false, identifiers := ["r1"], condition := some "c1" },
       { plotted := false, identifiers := ["r2"], condition := some "c2" }]).condition
      = "c1" := by
  obtain ⟨h1, h2⟩ :=
    (fill_conditions_amended { uiW with conditions := [""], condition := "" }
      [{ plotted := false, identifiers := ["r1"], condition := some "c1" },
       { plotted := false, identifiers := ["r2"], condition := some "c2" }]).2
      "c1" (by with_unfolding_all decide) (by with_unfolding_all decide)
  refine ⟨h1.trans (by with_unfolding_all decide), h2.trans ?_⟩
  rw [if_pos rfl, h1]
  with_unfolding_all decide

/-! ## C5: degenerate-range scaling -/

/-- Counterexample to C5: for a matching binding whose values are all
equal (`[2, 2]`), `plot_arrow_color` computes
`(v - min) / (max - min) = 0 / 0` unguarded and `plot_metabolite_color`
does the same, so the rendered color channel is the `NaN` value
(`none` in the model), not the midpoint of the destination range — the
callers do not guard the division. -/
theorem plot_arrow_color_cex :
    plot_arrow_color uiW [arrowW] [bDegenerate] =
      [{ id := "r1", stroke := some { line_width := some 1, color := none } }] ∧
    plot_metabolite_color uiW [circleW] [bDegenerate] =
      [{ id := "r1", radius := some 5, fill := none }] := by
  with_unfolding_all decide

/-- C5 (amended): the color passes do not special-case a degenerate
(all-values-equal) dataset: the division `(v - min) / (max - min)`
evaluates to `0 / 0 = NaN` (`fdiv _ 0 = none`), `lerp_hsv` propagates
it, and the non-finite value is written to the stroke/fill color of
every matched element; no midpoint is produced. -/
theorem plot_color_degenerate (ui : UiState) (arrows : List ArrowEnt)
    (circles : List CircleEnt) (b : PointBinding)
    (hdeg : max_f32 b.values = min_f32 b.values)
    (hskip : condSkip ui b.aes = false) :
    (∀ i arrow s, arrows.get? i = some arrow → arrow.stroke = some s →
      (b.aes.identifiers.findIdx? (fun r => r = arrow.id)).isSome = true →
      (plot_arrow_color ui arrows [b]).get? i =
        some { arrow with stroke := some { s with color := none } }) ∧
    (∀ i circle, circles.get? i = some circle →
      (b.aes.identifiers.findIdx? (fun r => r = circle.id)).isSome = true →
      (plot_metabolite_color ui circles [b]).get? i =
        some { circle with fill := none }) := by
  have hzero : max_f32 b.values - min_f32 b.values = 0 := by
    rw [hdeg, sub_self]
  have hdiv : ∀ x : ℚ, fdiv x (max_f32 b.values - min_f32 b.values) = none := by
    intro x
    rw [hzero]
    unfold fdiv
    rw [if_pos rfl]
  constructor
  · intro i arrow s harrow hs hfind
    show ((arrowColorStep ui arrows b).get? i) = _
    unfold arrowColorStep
    rw [hskip]
    simp only [Bool.false_eq_true, if_false, List.get?_map, harrow,
      Option.map_some']
    obtain ⟨index, hidx⟩ := Option.isSome_iff_exists.mp hfind
    rw [hs, hidx]
    dsimp only
    rw [hdiv]
    rfl
  · intro i circle hcircle hfind
    show ((metColorStep ui circles b).get? i) = _
    unfold metColorStep
    simp only [List.get?_map, hcircle, Option.map_some']
    obtain ⟨index, hidx⟩ := Option.isSome_iff_exists.mp hfind
    rw [hidx]
    dsimp only
    rw [hdiv]
    rfl

/-- Witness for C5 (amended): the degenerate binding `[2, 2]` writes
`NaN` (`none`) into the arrow stroke color and the circle fill. -/
theorem plot_color_degenerate_witness :
    (plot_arrow_color uiW [arrowW] [bDegenerate]).get? 0 =
      some { arrowW with
             stroke := some { line_width := some 1, color := none } } ∧
    (plot_metabolite_color uiW [circleW] [bDegenerate]).get? 0 =
      some { circleW with fill := none } := by
  obtain ⟨h1, h2⟩ := plot_color_degenerate uiW [arrowW] [circleW] bDegenerate
    (by with_unfolding_all decide) (by with_unfolding_all decide)
  exact ⟨h1 0 arrowW { line_width := some 1, color := some greyColor } rfl rfl
      (by with_unfolding_all decide),
    h2 0 circleW rfl (by with_unfolding_all decide)⟩

/-! ## C9: the metabolite passes ignore conditions; last write wins -/

theorem metSizeStep_pres (ui : UiState) (circles : List CircleEnt)
    (b : PointBinding) (i : Nat) :
    ((metSizeStep ui circles b).get? i).map (fun c => (c.id, c.fill)) =
      (circles.get? i).map (fun c => (c.id, c.fill)) := by
  unfold metSizeStep
  rw [List.get?_map]
  cases circles.get? i <;> rfl

theorem plot_metabolite_size_pres (ui : UiState) (bs : List PointBinding) :
    ∀ (circles : List CircleEnt) (i : Nat),
      ((plot_metabolite_size ui circles bs).get? i).map (fun c => (c.id, c.fill)) =
        (circles.get? i).map (fun c => (c.id, c.fill)) := by
  induction bs with
  | nil => intro circles i; rfl
  | cons b rest ih =>
    intro circles i
    show ((rest.foldl (metSizeStep ui) (metSizeStep ui circles b)).get? i).map _ = _
    exact (ih (metSizeStep ui circles b) i).trans (metSizeStep_pres ui circles b i)

theorem metColorStep_pres (ui : UiState) (circles : List CircleEnt)
    (b : PointBinding) (i : Nat) :
    ((metColorStep ui circles b).get? i).map (fun c => (c.id, c.radius)) =
      (circles.get? i).map (fun c => (c.id, c.radius)) := by
  unfold metColorStep
  rw [List.get?_map]
  cases hc : circles.get? i with
  | none => rfl
  | some circle =>
    simp only [Option.map_some']
    cases b.aes.identifiers.findIdx? (fun r => r = circle.id) <;> rfl

theorem plot_metabolite_color_pres (ui : UiState) (bs : List PointBinding) :
    ∀ (circles : List CircleEnt) (i : Nat),
      ((plot_metabolite_color ui circles bs).get? i).map (fun c => (c.id, c.radius)) =
        (circles.get? i).map (fun c => (c.id, c.radius)) := by
  induction bs with
  | nil => intro circles i; rfl
  | cons b rest ih =>
    intro circles i
    show ((rest.foldl (metColorStep ui) (metColorStep ui circles b)).get? i).map _ = _
    exact (ih (metColorStep ui circles b) i).trans (metColorStep_pres ui circles b i)

/-- C9: the metabolite size/color passes perform no condition
filtering: their result is unchanged under any change of the active
condition or of the bindings' condition labels; when several bindings
are present, the binding iterated last determines each circle's final
radius and fill; by contrast, `plot_arrow_size` and `plot_arrow_color`
skip a binding whose condition differs from the active condition. -/
theorem metabolite_passes_spec (ui : UiState) (circles : List CircleEnt)
    (arrows : List ArrowEnt) (bs bs2 : List PointBinding)
    (b : PointBinding) :
    (∀ c, plot_metabolite_size { ui with condition := c } circles bs =
      plot_metabolite_size ui circles bs) ∧
    (∀ c, plot_metabolite_color { ui with condition := c } circles bs =
      plot_metabolite_color ui circles bs) ∧
    (∀ f : PointBinding → Option String,
      plot_metabolite_size ui circles
        (bs.map fun x => { x with aes := { x.aes with condition := f x } }) =
      plot_metabolite_size ui circles bs) ∧
    (∀ f : PointBinding → Option String,
      plot_metabolite_color ui circles
        (bs.map fun x => { x with aes := { x.aes with condition := f x } }) =
      plot_metabolite_color ui circles bs) ∧
    (∀ i circle, circles.get? i = some circle →
      (plot_metabolite_size ui circles (bs ++ [b])).get? i =
        some { circle with radius := metaboliteRadius ui b circle.id } ∧
      (plot_metabolite_color ui circles (bs ++ [b])).get? i =
        some { circle with fill := metaboliteFill ui b circle.id }) ∧
    (condSkip ui b.aes = true →
      plot_arrow_size ui arrows (b :: bs2) = plot_arrow_size ui arrows bs2 ∧
      plot_arrow_color ui arrows (b :: bs2) = plot_arrow_color ui arrows bs2) := by
  refine ⟨fun c => rfl, fun c => rfl, ?_, ?_, ?_, ?_⟩
  · intro f
    induction bs generalizing circles with
    | nil => rfl
    | cons b0 rest ih => exact ih (metSizeStep ui circles b0)
  · intro f
    induction bs generalizing circles with
    | nil => rfl
    | cons b0 rest ih => exact ih (metColorStep ui circles b0)
  · intro i circle hcircle
    constructor
    · show ((bs ++ [b]).foldl (metSizeStep ui) circles).get? i = _
      rw [List.foldl_append]
      have hmid := plot_metabolite_size_pres ui bs circles i
      rw [hcircle] at hmid
      cases hmid2 : (plot_metabolite_size ui circles bs).get? i with
      | none => rw [hmid2] at hmid; cases hmid
      | some cmid =>
        rw [hmid2] at hmid
        simp only [Option.map_some', Option.some.injEq, Prod.mk.injEq] at hmid
        show ((metSizeStep ui (plot_metabolite_size ui circles bs) b).get? i) = _
        unfold metSizeStep
        rw [List.get?_map]
        show ((plot_metabolite_size ui circles bs).get? i).map _ = _
        rw [hmid2]
        obtain ⟨hid, hfill⟩ := hmid
        cases cmid with
        | mk cid crad cfill =>
          cases circle with
          | mk did drad dfill =>
            simp only at hid hfill
            subst hid
            subst hfill
            rfl
    · show ((bs ++ [b]).foldl (metColorStep ui) circles).get? i = _
      rw [List.foldl_append]
      have hmid := plot_metabolite_color_pres ui bs circles i
      rw [hcircle] at hmid
      cases hmid2 : (plot_metabolite_color ui circles bs).get? i with
      | none => rw [hmid2] at hmid; cases hmid
      | some cmid =>
        rw [hmid2] at hmid
        simp only [Option.map_some', Option.some.injEq, Prod.mk.injEq] at hmid
        show ((metColorStep ui (plot_metabolite_color ui circles bs) b).get? i) = _
        unfold metColorStep
        rw [List.get?_map]
        show ((plot_metabolite_color ui circles bs).get? i).map _ = _
        rw [hmid2]
        obtain ⟨hid, hrad⟩ := hmid
        cases cmid with
        | mk cid crad cfill =>
          cases circle with
          | mk did drad dfill =>
            simp only at hid hrad
            subst hid
            subst hrad
            simp only [Option.map_some']
            unfold metaboliteFill
            cases b.aes.identifiers.findIdx? (fun r => r = cid) <;> rfl
  · intro hskip
    constructor
    · show bs2.foldl (arrowSizeStep ui) (arrowSizeStep ui arrows b) = _
      unfold arrowSizeStep
      rw [hskip]
      rfl
    · show bs2.foldl (arrowColorStep ui) (arrowColorStep ui arrows b) = _
      unfold arrowColorStep
      rw [hskip]
      rfl

/-- Witness for C9: two bindings both matching circle `r1`, the second
under an inactive condition `condX`, still both apply, and the second
(last) one determines the final radius; an arrow binding under `condX`
is skipped by `plot_arrow_size`. -/
theorem metabolite_passes_spec_witness :
    (plot_metabolite_size uiW [circleW]
        [bDegenerate,
         { values := [3]
           aes := { plotted := false, identifiers := ["r1"]
                    condition := some "condX" } }]).get? 0 =
      some { circleW with
             radius := metaboliteRadius uiW
               { values := [3]
                 aes := { plotted := false, identifiers := ["r1"]
                          condition := some "condX" } } "r1" } ∧
    plot_arrow_size uiW [arrowW]
      [{ values := [3]
         aes := { plotted := false, identifiers := ["r1"]
                  condition := some "condX" } }] = [arrowW] := by
  obtain ⟨_, _, _, _, h5, h6⟩ := metabolite_passes_spec uiW [circleW] [arrowW]
    [bDegenerate] []
    { values := [3]
      aes := { plotted := false, identifiers := ["r1"]
               condition := some "condX" } }
  exact ⟨(h5 0 circleW rfl).1, (h6 (by with_unfolding_all decide)).1⟩

/-! ## C4: `plot_side_hist` with empty/degenerate geometry -/

/-- Counterexample to C4: a binding matching the second axis with an
empty sample set ends the pass with `rendered = true`, because the
first (non-matching) axis iteration already falls through to
`geom.rendered = true` before the failing iteration `continue 'outer`s.
The claim says the rendered flag is left `false` for every such
binding; here it is `true` (the binding is no longer retryable), even
though no glyph was spawned. -/
theorem plot_side_hist_cex :
    plot_side_hist [axOther, axMatch] [bEmptyDist] =
      ([{ dist := [[]]
          aes := { plotted := false, identifiers := ["r1"], condition := none }
          geom := { side := Side.Right, plot := HistPlot.Hist
                    in_axis := false, rendered := true } }], []) := by
  with_unfolding_all decide

/-- C4 (amended): when the histogram/KDE geometry computation returns
no geometry (empty sample set or degenerate axis range), the pass
abandons the binding without spawning any glyph; its rendered flag is
left `false` provided no earlier axis iteration for that binding
completed — in particular when the failing matching axis is the first
axis iterated — otherwise the flag was already set `true` by the
earlier iteration. -/
theorem plot_side_hist_no_geometry (axes : List Xaxis) (ax : Xaxis)
    (b : DistBinding) (hrend : b.geom.rendered = false)
    (index : Nat)
    (hidx : b.aes.identifiers.findIdx?
      (fun r => decide (r = ax.id) && decide (b.geom.side = ax.side)) =
        some index)
    (d : List ℚ) (hd : b.dist.get? index = some d)
    (hplot : b.geom.plot = HistPlot.Hist ∨ b.geom.plot = HistPlot.Kde)
    (hfail : d = [] ∨ ax.xlimits.1 = ax.xlimits.2) :
    plot_side_hist (ax :: axes) [b] = ([b], []) := by
  have hcond : (d.isEmpty = true) ∨ ax.xlimits.1 = ax.xlimits.2 := by
    rcases hfail with hE | hDeg
    · exact Or.inl (by rw [hE]; rfl)
    · exact Or.inr hDeg
  have hloop : sideHistLoop b.aes b.dist (ax :: axes) b.geom [] =
      (b.geom, []) := by
    unfold sideHistLoop
    rw [hidx]
    dsimp only
    rw [hd]
    dsimp only
    rcases hplot with hp | hp <;> rw [hp] <;> dsimp only
    · rw [show plot_hist d 30 ax.arrow_size ax.xlimits = none from by
        unfold plot_hist
        rw [if_pos hcond]]
    · rw [show plot_kde d 200 ax.arrow_size ax.xlimits = none from by
        unfold plot_kde
        rw [if_pos hcond]]
  unfold plot_side_hist
  rw [List.foldl_cons]
  simp only [hrend, Bool.false_eq_true, if_false]
  rw [hloop]
  rfl

/-- Witness for C4 (amended): with the failing axis first, the binding
is returned unchanged (rendered still `false`) and no glyph spawns. -/
theorem plot_side_hist_no_geometry_witness :
    plot_side_hist [axMatch] [bEmptyDist] = ([bEmptyDist], []) :=
  plot_side_hist_no_geometry [] axMatch bEmptyDist rfl 0
    (by with_unfolding_all decide) [] rfl (Or.inl rfl) (Or.inl rfl)

/-! ## C6: idempotence of `build_axes` -/

/-- Whether the arrow loop of `build_axes` does anything at this
(binding, arrow) pair: the binding's identifiers contain the arrow id
at an index inside the distribution list, and the side is drawable. -/
def bindingHits (b : DistBinding) (a : ArrowGeom) : Bool :=
  match arrowHit b a with
  | none => false
  | some _ => if b.geom.side = Side.Up then false else true

theorem buildStep_of_not_hits {b : DistBinding} {a : ArrowGeom}
    (h : bindingHits b a = false) (acc : AxMap × Bool) :
    buildStep b acc a = acc := by
  unfold bindingHits at h
  unfold buildStep
  cases hh : arrowHit b a with
  | none => rfl
  | some d =>
    by_cases hup : b.geom.side = Side.Up
    · dsimp only
      rw [if_pos hup]
    · simp [hh, hup] at h

theorem buildStep_snd_of_hits {b : DistBinding} {a : ArrowGeom}
    (h : bindingHits b a = true) (acc : AxMap × Bool) :
    (buildStep b acc a).2 = true := by
  unfold bindingHits at h
  unfold buildStep
  cases hh : arrowHit b a with
  | none => simp [hh] at h
  | some d =>
    by_cases hup : b.geom.side = Side.Up
    · simp [hh, hup] at h
    · dsimp only
      rw [if_neg hup]

theorem buildStep_snd_mono {b : DistBinding} {a : ArrowGeom}
    {acc : AxMap × Bool} (h : acc.2 = true) :
    (buildStep b acc a).2 = true := by
  unfold buildStep
  cases hh : arrowHit b a with
  | none => exact h
  | some d =>
    by_cases hup : b.geom.side = Side.Up
    · dsimp only
      rw [if_pos hup]
      exact h
    · dsimp only
      rw [if_neg hup]

theorem fold_snd_mono {b : DistBinding} :
    ∀ (arrows : List ArrowGeom) (acc : AxMap × Bool), acc.2 = true →
      (arrows.foldl (buildStep b) acc).2 = true := by
  intro arrows
  induction arrows with
  | nil => intro acc h; exact h
  | cons a rest ih => intro acc h; exact ih _ (buildStep_snd_mono h)

theorem fold_snd_false {b : DistBinding} :
    ∀ (arrows : List ArrowGeom) (m : AxMap),
      (arrows.foldl (buildStep b) (m, false)).2 = false →
      ∀ a ∈ arrows, bindingHits b a = false := by
  intro arrows
  induction arrows with
  | nil => intro m h a ha; cases ha
  | cons a0 rest ih =>
    intro m h a ha
    have h0 : bindingHits b a0 = false := by
      cases hbh : bindingHits b a0 with
      | false => rfl
      | true =>
        have htrue : (rest.foldl (buildStep b)
            (buildStep b (m, false) a0)).2 = true :=
          fold_snd_mono rest _ (buildStep_snd_of_hits hbh _)
        rw [List.foldl_cons] at h
        rw [htrue] at h
        cases h
    rcases List.mem_cons.mp ha with rfl | ha2
    · exact h0
    · apply ih m
      · rw [List.foldl_cons, buildStep_of_not_hits h0] at h
        exact h
      · exact ha2

theorem fold_of_no_hits {b : DistBinding} :
    ∀ (arrows : List ArrowGeom) (acc : AxMap × Bool),
      (∀ a ∈ arrows, bindingHits b a = false) →
      arrows.foldl (buildStep b) acc = acc := by
  intro arrows
  induction arrows with
  | nil => intro acc h; rfl
  | cons a0 rest ih =>
    intro acc h
    rw [List.foldl_cons, buildStep_of_not_hits (h a0 (List.mem_cons_self a0 rest))]
    exact ih acc fun a ha => h a (List.mem_cons_of_mem a0 ha)

/-- A binding the axis builder can never touch again: it is already
marked aggregated, or no arrow hits it. -/
def bindingInert (arrows : List ArrowGeom) (b : DistBinding) : Prop :=
  b.geom.in_axis = true ∨ ∀ a ∈ arrows, bindingHits b a = false

/-- The binding the outer loop appends for `b`. -/
def stepOut (arrows : List ArrowGeom) (m : AxMap) (b : DistBinding) :
    DistBinding :=
  if b.geom.in_axis then b
  else if (arrows.foldl (buildStep b) (m, false)).2 then
    { b with geom := { b.geom with in_axis := true } }
  else b

theorem buildBindingStep_decomp (arrows : List ArrowGeom)
    (acc : List DistBinding × AxMap) (b : DistBinding) :
    buildBindingStep arrows acc b =
      (acc.1 ++ [stepOut arrows acc.2 b],
       if b.geom.in_axis then acc.2
       else (arrows.foldl (buildStep b) (acc.2, false)).1) := by
  unfold buildBindingStep stepOut
  by_cases hin : b.geom.in_axis = true
  · simp [hin]
  · have hin2 : b.geom.in_axis = false := by
      cases hb : b.geom.in_axis with
      | false => rfl
      | true => exact absurd hb hin
    simp only [hin2, Bool.false_eq_true, if_false]

theorem stepOut_inert (arrows : List ArrowGeom) (m : AxMap)
    (b : DistBinding) : bindingInert arrows (stepOut arrows m b) := by
  unfold stepOut
  by_cases hin : b.geom.in_axis = true
  · simp only [hin, if_true]
    exact Or.inl hin
  · have hin2 : b.geom.in_axis = false := by
      cases hb : b.geom.in_axis with
      | false => rfl
      | true => exact absurd hb hin
    simp only [hin2, Bool.false_eq_true, if_false]
    cases hsnd : (arrows.foldl (buildStep b) (m, false)).2 with
    | true =>
      simp only [if_true]
      exact Or.inl rfl
    | false =>
      simp only [Bool.false_eq_true, if_false]
      exact Or.inr (fold_snd_false arrows m hsnd)

theorem fold_mem_inert (arrows : List ArrowGeom) :
    ∀ (bs : List DistBinding) (pre : List DistBinding) (m : AxMap),
      (∀ x ∈ pre, bindingInert arrows x) →
      ∀ x ∈ (bs.foldl (buildBindingStep arrows) (pre, m)).1,
        bindingInert arrows x := by
  intro bs
  induction bs with
  | nil => intro pre m hpre x hx; exact hpre x hx
  | cons b rest ih =>
    intro pre m hpre x hx
    rw [List.foldl_cons, buildBindingStep_decomp] at hx
    refine ih _ _ ?_ x hx
    intro y hy
    rcases List.mem_append.mp hy with h1 | h2
    · exact hpre y h1
    · rw [List.mem_singleton.mp h2]
      exact stepOut_inert arrows m b

theorem build_axes_fold_inert (arrows : List ArrowGeom) :
    ∀ (bs : List DistBinding) (pre : List DistBinding),
      (∀ b ∈ bs, bindingInert arrows b) →
      bs.foldl (buildBindingStep arrows) (pre, ([] : AxMap)) =
        (pre ++ bs, []) := by
  intro bs
  induction bs with
  | nil => intro pre h; rw [List.foldl_nil, List.append_nil]
  | cons b rest ih =>
    intro pre h
    rw [List.foldl_cons]
    have hstep : buildBindingStep arrows (pre, ([] : AxMap)) b =
        (pre ++ [b], []) := by
      rw [buildBindingStep_decomp]
      rcases h b (List.mem_cons_self b rest) with hin | hnh
      · simp [stepOut, hin]
      · have hfold : arrows.foldl (buildStep b) (([] : AxMap), false) =
            ([], false) := fold_of_no_hits arrows _ hnh
        by_cases hin : b.geom.in_axis = true
        · simp [stepOut, hin]
        · simp [stepOut, hin, hfold]
    rw [hstep, ih (pre ++ [b]) fun a ha => h a (List.mem_cons_of_mem b ha)]
    simp

/-- C6: the axis-building pass is idempotent: every binding it
processed is either marked `in_axis` or can never contribute, so a
second run over its own output changes no binding and spawns no new
axes (the accumulator of the second run stays empty, leaving every
previously spawned axis range and condition list untouched). -/
theorem build_axes_idempotent (arrows : List ArrowGeom)
    (bs : List DistBinding) :
    build_axes arrows (build_axes arrows bs).1 =
      ((build_axes arrows bs).1, []) := by
  have hinert := fold_mem_inert arrows bs [] []
    fun x hx => absurd hx (List.not_mem_nil x)
  have h2 := build_axes_fold_inert arrows (build_axes arrows bs).1 [] hinert
  simpa using h2

/-! ## C1: range union in `build_axes` -/

theorem axLookup_axInsert_self (m : AxMap) (k : AxKey) (ax : Xaxis) :
    axLookup (axInsert m k ax) k = some ax := by
  induction m with
  | nil =>
    unfold axInsert axLookup
    rw [if_pos rfl]
  | cons p rest ih =>
    obtain ⟨k1, ax1⟩ := p
    unfold axInsert
    by_cases h1 : k1 = k
    · rw [if_pos h1]
      unfold axLookup
      rw [if_pos rfl]
    · rw [if_neg h1]
      unfold axLookup
      rw [if_neg h1]
      exact ih

theorem axLookup_axInsert_ne (m : AxMap) (k k2 : AxKey) (ax : Xaxis)
    (h : k2 ≠ k) : axLookup (axInsert m k ax) k2 = axLookup m k2 := by
  induction m with
  | nil =>
    unfold axInsert axLookup
    rw [if_neg fun he => h he.symm]
    rfl
  | cons p rest ih =>
    obtain ⟨k1, ax1⟩ := p
    unfold axInsert
    by_cases h1 : k1 = k
    · rw [if_pos h1]
      unfold axLookup
      rw [if_neg fun he => h he.symm, if_neg fun he => h (he.symm.trans h1)]
    · rw [if_neg h1]
      unfold axLookup
      by_cases h2 : k1 = k2
      · rw [if_pos h2, if_pos h2]
      · rw [if_neg h2, if_neg h2]
        exact ih

theorem unionFold_fst (c : ℚ × ℚ) (cs : List (ℚ × ℚ)) :
    (unionFold (c :: cs)).1 = min_f32 ((c :: cs).map Prod.fst) := by
  show (cs.foldl (fun acc q => (min acc.1 q.1, max acc.2 q.2)) c).1 =
    (cs.map Prod.fst).foldl min c.1
  induction cs generalizing c with
  | nil => rfl
  | cons q rest ih => exact ih (min c.1 q.1, max c.2 q.2)

theorem unionFold_snd (c : ℚ × ℚ) (cs : List (ℚ × ℚ)) :
    (unionFold (c :: cs)).2 = max_f32 ((c :: cs).map Prod.snd) := by
  show (cs.foldl (fun acc q => (min acc.1 q.1, max acc.2 q.2)) c).2 =
    (cs.map Prod.snd).foldl max c.2
  induction cs generalizing c with
  | nil => rfl
  | cons q rest ih => exact ih (min c.1 q.1, max c.2 q.2)

theorem unionFold_concat (c : ℚ × ℚ) (cs : List (ℚ × ℚ)) (q : ℚ × ℚ) :
    unionFold ((c :: cs) ++ [q]) =
      (min (unionFold (c :: cs)).1 q.1, max (unionFold (c :: cs)).2 q.2) := by
  show (cs ++ [q]).foldl (fun acc r => (min acc.1 r.1, max acc.2 r.2)) c = _
  rw [List.foldl_append]
  rfl

/-- The invariant tying the axis accumulator to the spec-side
contribution lists: a key is present iff it has contributions, and its
stored range is the fold of `min`/`max` over them. -/
def axInv (m : AxMap) (C : AxKey → List (ℚ × ℚ)) : Prop :=
  ∀ k, (axLookup m k = none ↔ C k = []) ∧
    ∀ ax, axLookup m k = some ax → ax.xlimits = unionFold (C k)

theorem buildStep_inv {b : DistBinding} {a : ArrowGeom} {m : AxMap}
    {g : Bool} {C : AxKey → List (ℚ × ℚ)} (h : axInv m C) :
    axInv (buildStep b (m, g) a).1
      (fun k => C k ++ (arrowRange b a k).toList) := by
  cases hh : arrowHit b a with
  | none =>
    have hbh : bindingHits b a = false := by unfold bindingHits; rw [hh]
    unfold axInv
    intro k
    have hr : arrowRange b a k = none := by unfold arrowRange; rw [hh]
    rw [buildStep_of_not_hits hbh]
    dsimp only
    rw [hr]
    simp only [Option.toList_none, List.append_nil]
    exact h k
  | some d =>
    by_cases hup : b.geom.side = Side.Up
    · have hbh : bindingHits b a = false := by
        unfold bindingHits
        rw [hh]
        dsimp only
        rw [if_pos hup]
      unfold axInv
      intro k
      have hr : arrowRange b a k = none := by
        unfold arrowRange
        rw [hh]
        dsimp only
        rw [if_pos hup]
      rw [buildStep_of_not_hits hbh]
      dsimp only
      rw [hr]
      simp only [Option.toList_none, List.append_nil]
      exact h k
    · have hstep : buildStep b (m, g) a =
          (axInsert m (a.id, b.geom.side)
            (let xl := (min_f32 d, max_f32 d)
             let ax0 :=
               match axLookup m (a.id, b.geom.side) with
               | some ax => ax
               | none =>
                 { id := a.id, arrow_size := a.size, xlimits := xl
                   side := b.geom.side, plot := b.geom.plot
                   node_id := a.node_id, dragged := false, rotating := false
                   conditions := [] }
             { ax0 with
               xlimits := (min ax0.xlimits.1 xl.1, max ax0.xlimits.2 xl.2)
               conditions := ax0.conditions ++ b.aes.condition.toList }),
           true) := by
        unfold buildStep
        rw [hh]
        dsimp only
        rw [if_neg hup]
      unfold axInv
      intro k
      by_cases hk : k = (a.id, b.geom.side)
      · subst hk
        have hr : arrowRange b a ((a.id, b.geom.side) : AxKey) =
            some (min_f32 d, max_f32 d) := by
          unfold arrowRange
          rw [hh]
          dsimp only
          rw [if_neg hup, if_pos rfl]
        rw [hstep]
        dsimp only
        rw [axLookup_axInsert_self, hr]
        constructor
        · constructor
          · intro hcontra
            cases hcontra
          · intro hcontra
            exact absurd hcontra (by simp)
        · intro ax hax
          have hax2 := Option.some.inj hax
          rw [← hax2]
          cases hlm : axLookup m (a.id, b.geom.side) with
          | none =>
            have hCnil : C (a.id, b.geom.side) = [] := (h _).1.mp hlm
            rw [hCnil]
            dsimp only
            simp [unionFold, min_self, max_self, inf_idem, sup_idem]
          | some ax2 =>
            have hx2 : ax2.xlimits = unionFold (C (a.id, b.geom.side)) :=
              (h _).2 ax2 hlm
            have hCne : C (a.id, b.geom.side) ≠ [] := by
              intro hnil
              rw [(h _).1.mpr hnil] at hlm
              cases hlm
            obtain ⟨c, cs, hcs⟩ := List.exists_cons_of_ne_nil hCne
            rw [hcs] at hx2
            rw [hcs]
            dsimp only
            rw [show ((some ((min_f32 d, max_f32 d) : ℚ × ℚ)).toList) =
              [((min_f32 d, max_f32 d) : ℚ × ℚ)] from rfl]
            rw [unionFold_concat, hx2]
      · have hr : arrowRange b a k = none := by
          unfold arrowRange
          rw [hh]
          dsimp only
          rw [if_neg hup, if_neg fun he => hk he.symm]
        rw [hstep]
        dsimp only
        rw [axLookup_axInsert_ne _ _ _ _ hk, hr]
        simp only [Option.toList_none, List.append_nil]
        exact h k

theorem fold_arrows_inv {b : DistBinding} :
    ∀ (arrows : List ArrowGeom) (m : AxMap) (flag : Bool)
      (C : AxKey → List (ℚ × ℚ)), axInv m C →
      axInv (arrows.foldl (buildStep b) (m, flag)).1
        (fun k => C k ++ bindingRanges arrows b k) := by
  intro arrows
  induction arrows with
  | nil =>
    intro m flag C h
    unfold axInv
    intro k
    simp only [bindingRanges, List.filterMap_nil, List.append_nil]
    exact h k
  | cons a rest ih =>
    intro m flag C h
    rw [List.foldl_cons]
    have h1 := buildStep_inv (b := b) (a := a) (g := flag) h
    have h2 := ih (buildStep b (m, flag) a).1 (buildStep b (m, flag) a).2 _ h1
    unfold axInv at h2 ⊢
    intro k
    have hshape : bindingRanges (a :: rest) b k =
        (arrowRange b a k).toList ++ bindingRanges rest b k := by
      unfold bindingRanges
      rw [List.filterMap_cons]
      cases arrowRange b a k <;> rfl
    dsimp only
    rw [hshape, ← List.append_assoc]
    exact h2 k

theorem build_axes_fold_inv (arrows : List ArrowGeom) :
    ∀ (bs : List DistBinding) (pre : List DistBinding) (m : AxMap)
      (C : AxKey → List (ℚ × ℚ)), axInv m C →
      axInv (bs.foldl (buildBindingStep arrows) (pre, m)).2
        (fun k => C k ++ specLocalRanges arrows bs k) := by
  intro bs
  induction bs with
  | nil =>
    intro pre m C h
    unfold axInv
    intro k
    dsimp only
    have hnil : specLocalRanges arrows [] k = [] := rfl
    rw [hnil, List.append_nil]
    exact h k
  | cons b rest ih =>
    intro pre m C h
    rw [List.foldl_cons, buildBindingStep_decomp]
    by_cases hin : b.geom.in_axis = true
    · rw [if_pos hin]
      have h2 := ih (pre ++ [stepOut arrows m b]) m C h
      unfold axInv at h2 ⊢
      intro k
      have hs : specLocalRanges arrows (b :: rest) k =
          specLocalRanges arrows rest k := by
        unfold specLocalRanges
        rw [List.flatMap_cons, if_pos hin]
        rfl
      dsimp only
      rw [hs]
      exact h2 k
    · rw [if_neg hin]
      have h1 := fold_arrows_inv (b := b) arrows m false C h
      have h2 := ih (pre ++ [stepOut arrows m b]) _ _ h1
      unfold axInv at h2 ⊢
      intro k
      have hs : specLocalRanges arrows (b :: rest) k =
          bindingRanges arrows b k ++ specLocalRanges arrows rest k := by
        unfold specLocalRanges
        rw [List.flatMap_cons, if_neg hin]
      dsimp only
      rw [hs, ← List.append_assoc]
      exact h2 k

/-- C1: after the axis-building pass, a Shared Axis exists for a key
(element id, side) iff some distribution binding maps a local range to
that key, and its stored range is the union of all those local ranges:
its min is the minimum of the local minima and its max is the maximum
of the local maxima. -/
theorem build_axes_union (arrows : List ArrowGeom) (bs : List DistBinding)
    (k : AxKey) :
    (axLookup (build_axes arrows bs).2 k = none ↔
      specLocalRanges arrows bs k = []) ∧
    ∀ ax, axLookup (build_axes arrows bs).2 k = some ax →
      ax.xlimits.1 = min_f32 ((specLocalRanges arrows bs k).map Prod.fst) ∧
      ax.xlimits.2 = max_f32 ((specLocalRanges arrows bs k).map Prod.snd) := by
  have h0 : axInv ([] : AxMap) (fun _ => []) := by
    unfold axInv
    intro k2
    refine ⟨by simp [axLookup], ?_⟩
    intro ax hax
    cases hax
  have h := build_axes_fold_inv arrows bs [] [] _ h0
  unfold axInv at h
  have hk := h k
  simp only [List.nil_append] at hk
  obtain ⟨hiff, hval⟩ := hk
  refine ⟨hiff, ?_⟩
  intro ax hax
  have hx := hval ax hax
  have hne : specLocalRanges arrows bs k ≠ [] := by
    intro hnil
    have hnone : axLookup (build_axes arrows bs).2 k = none := hiff.mpr hnil
    rw [hnone] at hax
    cases hax
  obtain ⟨c, cs, hcs⟩ := List.exists_cons_of_ne_nil hne
  rw [hcs] at hx ⊢
  rw [hx]
  exact ⟨unionFold_fst c cs, unionFold_snd c cs⟩

/-- Witness for C1: distributions `[1, 2, 3]` and `[0, 5]` bound to the
same (element, side) yield the Shared Axis range `(0, 5)`. -/
theorem build_axes_union_witness :
    ∃ ax, axLookup (build_axes [arrW] [bW1, bW2]).2 ("r1", Side.Right) =
        some ax ∧ ax.xlimits.1 = 0 ∧ ax.xlimits.2 = 5 := by
  obtain ⟨hiff, hval⟩ := build_axes_union [arrW] [bW1, bW2] ("r1", Side.Right)
  cases hax : axLookup (build_axes [arrW] [bW1, bW2]).2 ("r1", Side.Right) with
  | none => exact absurd (hiff.mp hax) (by with_unfolding_all decide)
  | some ax =>
    obtain ⟨h1, h2⟩ := hval ax hax
    refine ⟨ax, rfl, ?_, ?_⟩
    · rw [h1]
      with_unfolding_all decide
    · rw [h2]
      with_unfolding_all decide

end Shu
